import Mathlib

/-!
Formal model of the giraffez column codec (src/giraffez/src/convert.c):
the packed-decimal decoders, the decimal/date/char/time encoders, and the
buffer-cursor read primitives they rely on.  Machine integers are modelled
as `Int`/`Nat`; the byte level is `List Nat` with each byte below 256.
-/

/-- Decimal digits of `n`, most significant first, mirroring how C
`sprintf("%d", ...)` renders a non-negative value.  `fuel` bounds the
recursion; callers pass `n + 1`, which is always sufficient because a
number needs at most `n` divisions by 10. -/
def natDigitsAux : Nat → Nat → List Char
  | 0, _ => []
  | fuel + 1, n =>
    if n < 10 then [Char.ofNat (48 + n)]
    else natDigitsAux fuel (n / 10) ++ [Char.ofNat (48 + n % 10)]

/-- Decimal rendering of a natural number, as C `printf "%d"` renders it. -/
def natRepr (n : Nat) : String := ⟨natDigitsAux (n + 1) n⟩

/-- Decimal rendering of an integer with its sign, as C `printf "%d"` or
Python `str` render it. -/
def intRepr (v : Int) : String := (if v < 0 then "-" else "") ++ natRepr v.natAbs

/-- Left-pad a digit string with zeros to width `w`, as C `printf "%0*d"`
pads the digits of a non-negative number (a longer string is unchanged). -/
def zeroPad (w : Nat) (s : String) : String :=
  ⟨List.replicate (w - s.length) '0'⟩ ++ s

/-- Shared body of the C `decimal8/16/32/64_to_pystring` decoders, which are
textually identical except for the C integer type.  For `column_scale > 0`
the C code computes `scale = (intN)pow(10, column_scale)`,
`x = abs(v / scale)`, `y = abs(v % scale)` with C truncated division, and
prints `"-%d.%0*d"` (value negative) or `"%d.%0*d"`; for scale 0 it prints
`"%d"`.  The `(intN)pow` cast is defined behavior only while
`10^column_scale` fits the type, which the theorems assume. -/
def decimal_int_render (v : Int) (column_scale : Nat) : String :=
  if 0 < column_scale then
    let sc : Int := ((10 ^ column_scale : Nat) : Int)
    (if v < 0 then "-" else "") ++ natRepr (v.tdiv sc).natAbs ++ "." ++
      zeroPad column_scale (natRepr (v.tmod sc).natAbs)
  else intRepr v

/-- decimal8_to_pystring of convert.c on the already-unpacked `int8_t`. -/
def decimal8_to_pystring (b : Int) (column_scale : Nat) : String :=
  decimal_int_render b column_scale

/-- decimal16_to_pystring of convert.c on the already-unpacked `int16_t`. -/
def decimal16_to_pystring (h : Int) (column_scale : Nat) : String :=
  decimal_int_render h column_scale

/-- decimal32_to_pystring of convert.c on the already-unpacked `int32_t`. -/
def decimal32_to_pystring (l : Int) (column_scale : Nat) : String :=
  decimal_int_render l column_scale

/-- decimal64_to_pystring of convert.c on the already-unpacked `int64_t`. -/
def decimal64_to_pystring (q : Int) (column_scale : Nat) : String :=
  decimal_int_render q column_scale

/-- PyNumber_Lshift on Python integers: an exact multiplication by `2^n`
(Python integers are unbounded, so the shift never truncates). -/
def pyLshift (a : Int) (n : Nat) : Int := a * 2 ^ n

/-- Body of decimal128_to_pystring after the two 64-bit words are combined
into `v`.  For `column_scale > 0` the C code uses `PyNumber_FloorDivide` and
`PyNumber_Remainder` (Python floor division and non-negative remainder for a
positive modulus) and the format `"%d.%0*d"` with no separate sign handling;
for scale 0 it is `PyObject_Str(v)`. -/
def decimal128_render (v : Int) (column_scale : Nat) : String :=
  if 0 < column_scale then
    let sc : Int := ((10 ^ column_scale : Nat) : Int)
    intRepr (v / sc) ++ "." ++ zeroPad column_scale (natRepr (v % sc).toNat)
  else intRepr v

/-- decimal128_to_pystring of convert.c on the already-unpacked words: the
unsigned low word `Q` and signed high word `q` are combined by Python
big-integer arithmetic as `(q << 64) | Q` (`Int.lor` models `PyNumber_Or`). -/
def decimal128_to_pystring (low : Nat) (high : Int) (column_scale : Nat) : String :=
  decimal128_render (Int.lor (pyLshift high 64) (low : Int)) column_scale

/-- Little-endian value of a byte list (least significant byte first). -/
def leVal : List Nat → Nat
  | [] => 0
  | b :: bs => b + 256 * leVal bs

/-- Two's-complement reinterpretation of a `w`-byte unsigned value as a
signed integer. -/
def toSigned (w n : Nat) : Int :=
  if n < 2 ^ (8 * w - 1) then (n : Int) else (n : Int) - 2 ^ (8 * w)

/-- Modelled from the spec: the buffer-cursor fixed-width unsigned
little-endian read (the `unpack_uint*_t` primitives of util.c, which is not
among the sources here; spec section 4.1 fixes bounds checking and byte
order).  Returns the value and the remaining bytes, or `none` when fewer
than `w` bytes remain. -/
def readUIntLE (w : Nat) (data : List Nat) : Option (Nat × List Nat) :=
  if w ≤ data.length then some (leVal (data.take w), data.drop w) else none

/-- Modelled from the spec: the signed fixed-width little-endian read (the
`unpack_int*_t` primitives of util.c, not among the sources here). -/
def readIntLE (w : Nat) (data : List Nat) : Option (Int × List Nat) :=
  match readUIntLE w data with
  | some (n, rest) => some (toSigned w n, rest)
  | none => none

/-- Little-endian byte encoding of a (already reduced) value, `w` bytes, as
the `pack_int*_t` primitives lay it out. -/
def toBytesLE : Nat → Nat → List Nat
  | 0, _ => []
  | w + 1, n => n % 256 :: toBytesLE w (n / 256)

/-- decimal_to_pystring of convert.c: dispatch on the decimal byte width as
the C switch does (the DECIMAL8/16/32/64/128 case labels are the byte widths
1/2/4/8/16 per the spec's data model; their defining header is not among the
sources).  An unknown width falls through and returns NULL (`none`). -/
def decimal_to_pystring (data : List Nat) (column_length column_scale : Nat) :
    Option String :=
  match column_length with
  | 1 =>
    match readIntLE 1 data with
    | some (v, _) => some (decimal8_to_pystring v column_scale)
    | none => none
  | 2 =>
    match readIntLE 2 data with
    | some (v, _) => some (decimal16_to_pystring v column_scale)
    | none => none
  | 4 =>
    match readIntLE 4 data with
    | some (v, _) => some (decimal32_to_pystring v column_scale)
    | none => none
  | 8 =>
    match readIntLE 8 data with
    | some (v, _) => some (decimal64_to_pystring v column_scale)
    | none => none
  | 16 =>
    match readUIntLE 8 data with
    | some (low, rest) =>
      match readIntLE 8 rest with
      | some (high, _) => some (decimal128_to_pystring low high column_scale)
      | none => none
    | none => none
  | _ => none

/-- Longest prefix of decimal digit characters, with the remainder. -/
def spanDigits : List Char → List Char × List Char
  | [] => ([], [])
  | c :: cs =>
    if c.isDigit then
      let r := spanDigits cs
      (c :: r.1, r.2)
    else ([], c :: cs)

/-- Value of a list of decimal digit characters, most significant first. -/
def digitsVal (ds : List Char) : Nat :=
  ds.foldl (fun a c => 10 * a + (c.toNat - 48)) 0

/-- Optional leading sign of a numeric literal: returns whether the literal
is negated and the remaining characters. -/
def parseSign (cs : List Char) : Bool × List Char :=
  match cs with
  | c :: t => if c = '-' ∨ c = '+' then (c = '-', t) else (false, c :: t)
  | [] => (false, [])

/-- Exact rational value of a parsed literal with integer digits `ip` and
fractional digits `fp`. -/
def ratOfParts (neg : Bool) (ip fp : List Char) : ℚ :=
  let q : ℚ := (digitsVal ip : ℚ) + (digitsVal fp : ℚ) / 10 ^ fp.length
  if neg then -q else q

/-- Digits-and-point part of a float literal: digits, optionally a point and
more digits, nothing else; at least one digit overall. -/
def parseBody (neg : Bool) (cs : List Char) : Option ℚ :=
  let ip := (spanDigits cs).1
  match (spanDigits cs).2 with
  | [] => if ip.isEmpty then none else some (ratOfParts neg ip [])
  | c2 :: r2 =>
    if c2 = '.' then
      if (spanDigits r2).2.isEmpty && (!ip.isEmpty || !(spanDigits r2).1.isEmpty) then
        some (ratOfParts neg ip (spanDigits r2).1)
      else none
    else none

/-- Models CPython's PyFloat_FromString on the fixed-point literals produced
by the decimal decoders: an optional sign, digits, an optional point and
fractional digits.  The numeric value is kept exact in ℚ.  (CPython also
accepts surrounding whitespace, exponents, inf and nan; none of those occur
in a rendered decimal, and this model rejects them.) -/
def parseFloatLit (s : String) : Option ℚ :=
  if s.data.isEmpty then none
  else parseBody (parseSign s.data).1 (parseSign s.data).2

/-- decimal_to_pyfloat of convert.c: build the decimal string and give it to
PyFloat_FromString. -/
def decimal_to_pyfloat (data : List Nat) (column_length column_scale : Nat) :
    Option ℚ :=
  (decimal_to_pystring data column_length column_scale).bind parseFloatLit

/-- Follows the claim's words (spec section 4.2): split `|v|` at
`10^scale` and render `[-]x.y` with `y` zero-padded to exactly `scale`
digits.  Used to compare the source-derived decoders against the specified
rendering. -/
def specDecimalRender (v : Int) (scale : Nat) : String :=
  (if v < 0 then "-" else "") ++ natRepr (v.natAbs / 10 ^ scale) ++ "." ++
    zeroPad scale (natRepr (v.natAbs % 10 ^ scale))

/-- Scales for which the `(intN)pow(10, scale)` cast in the width-1/2/4/8
decoders is defined behavior (`10^scale` fits the signed type); the width-16
decoder computes the power as a Python integer and has no such constraint. -/
def ScaleOK (column_length column_scale : Nat) : Prop :=
  (column_length = 1 → 10 ^ column_scale < 2 ^ 7) ∧
  (column_length = 2 → 10 ^ column_scale < 2 ^ 15) ∧
  (column_length = 4 → 10 ^ column_scale < 2 ^ 31) ∧
  (column_length = 8 → 10 ^ column_scale < 2 ^ 63)

instance (column_length column_scale : Nat) :
    Decidable (ScaleOK column_length column_scale) := by
  unfold ScaleOK
  infer_instance

/-- date_to_pydate of convert.c: read a signed 4-byte integer, add 19000000
and split into year/month/day with C truncated division and modulus.  The C
`l += 19000000` is an `int32_t` addition; the theorems restrict to inputs
where it cannot overflow, since signed overflow is undefined behavior. -/
def date_to_pydate (data : List Nat) : Option (Int × Int × Int) :=
  match readIntLE 4 data with
  | some (l, _) =>
    let l2 := l + 19000000
    some (l2.tdiv 10000, ((l2.tmod 10000).tdiv 100, l2.tmod 100))
  | none => none

/-- Models PyLong_FromString base 10 (also PyLong_FromUnicodeObject): an
optional sign followed by digits, nothing else; `none` on any other
character.  (CPython also skips surrounding whitespace, which never occurs
in the inputs modelled here.) -/
def parseLong10 (s : String) : Option Int :=
  let p := parseSign s.data
  let d := spanDigits p.2
  if d.1.isEmpty || !d.2.isEmpty then none
  else some (if p.1 then -(digitsVal d.1 : Int) else (digitsVal d.1 : Int))

/-- Outcome of one encode call: the bytes it wrote through the buffer
pointer, the amount it added to the running length counter, and whether it
returned Py_None (`true`) rather than NULL. -/
structure EncodeResult where
  bytes : List Nat
  lenInc : Nat
  ok : Bool
deriving DecidableEq

/-- pydate_to_int of convert.c: strip every hyphen from the textual date,
parse the remainder as a base-10 integer (a failed parse leaves the C code
reading `PyLong_AsLong(NULL)`, which yields -1), subtract 19000000 and pack
the result as a signed 4-byte little-endian integer. -/
def pydate_to_int (item : String) (column_length : Nat) : EncodeResult :=
  let s : String := ⟨item.data.filter (fun c => c ≠ '-')⟩
  let l : Int :=
    match parseLong10 s with
    | some n => n
    | none => -1
  let l2 := l - 19000000
  { bytes := toBytesLE 4 ((l2 % 2 ^ 32).toNat), lenInc := column_length, ok := true }

/-- pystring_to_char of convert.c: copy the source bytes, then append
`column_length - length` ASCII spaces (the C `fill` is a signed int and the
pad loop does not run when it is negative, which truncated `Nat`
subtraction reproduces), and add `column_length` to the length counter.
There is no length check (the source carries a TODO about it). -/
def pystring_to_char (s : String) (column_length : Nat) : EncodeResult :=
  let str := s.data.map Char.toNat
  let fill := column_length - str.length
  { bytes := str ++ List.replicate fill 0x20, lenInc := column_length, ok := true }

/-- PyUnicode_Split(item, ".", 1): split at the first dot only, so the
resulting list never has more than two parts. -/
def splitDot1 (s : String) : List String :=
  let a := s.data.takeWhile (fun c => c ≠ '.')
  match s.data.dropWhile (fun c => c ≠ '.') with
  | [] => [⟨a⟩]
  | _ :: rest => [⟨a⟩, ⟨rest⟩]

/-- C `sprintf("%0*s", w, s)` as glibc prints it: the zero flag is undefined
for `%s` and glibc pads with spaces on the left; a longer string is kept. -/
def pad0Star (w : Nat) (s : String) : String :=
  ⟨List.replicate (w - s.length) ' '⟩ ++ s

/-- pystring_to_decimal of convert.c: split at the first dot (so the
`l > 2` branch with the debug print is unreachable), build
`sprintf(dbuf, "%s%0*s", x, column_scale, y)`, parse `dbuf` with
PyLong_FromString (a failed or out-of-`long long`-range parse leaves
`PyLong_AsLongLong` returning -1 with an error indicator the code ignores),
and always pack the result with `pack_int64_t` — 8 bytes — while adding
`column_length` to the length counter and returning Py_None. -/
def pystring_to_decimal (item : String) (column_length column_scale : Nat) :
    EncodeResult :=
  let parts := splitDot1 item
  let x : String :=
    match parts with
    | [a] => a
    | [a, _] => a
    | _ => ""
  let y : String :=
    match parts with
    | [_] => ""
    | [_, b] => b
    | _ => ""
  let dbuf : String := x ++ pad0Star column_scale y
  let q : Int :=
    match parseLong10 dbuf with
    | some n => if -(2 ^ 63) ≤ n ∧ n < 2 ^ 63 then n else -1
    | none => -1
  { bytes := toBytesLE 8 ((q % 2 ^ 64).toNat), lenInc := column_length, ok := true }

/-- One numeric field of glibc strptime, at most two digits with maximum
value `mx`: after a first digit `d`, a second digit is consumed only while
`d * 10` still leaves the maximum reachable, and the final value must not
exceed `mx`. -/
def getNum (mx : Nat) (cs : List Char) : Option (Nat × List Char) :=
  match cs with
  | [] => none
  | c1 :: r1 =>
    if c1.isDigit then
      let d1 := c1.toNat - 48
      match r1 with
      | c2 :: r2 =>
        if c2.isDigit ∧ d1 * 10 ≤ mx then
          let v := d1 * 10 + (c2.toNat - 48)
          if v ≤ mx then some (v, r2) else none
        else if d1 ≤ mx then some (d1, r1) else none
      | [] => if d1 ≤ mx then some (d1, []) else none
    else none

/-- Models glibc `strptime(s, "%H:%M:%S", &tm)`: hour up to 23, minute up to
59, second up to 61 (glibc allows leap seconds), separated by literal
colons; trailing characters are ignored, as strptime only reports where it
stopped. -/
def strptimeHMS (s : String) : Option (Nat × Nat × Nat) :=
  match getNum 23 s.data with
  | none => none
  | some (h, r1) =>
    match r1 with
    | ':' :: r2 =>
      match getNum 59 r2 with
      | none => none
      | some (m, r3) =>
        match r3 with
        | ':' :: r4 =>
          match getNum 61 r4 with
          | none => none
          | some (sec, _) => some (h, (m, sec))
        | _ => none
    | _ => none

/-- Value handed back to the host by the time decoder: either the structured
time built by giraffez_time_from_time, or the raw text fallback. -/
inductive PyValue where
  | time (hour minute second fraction : Nat)
  | str (s : String)
deriving DecidableEq

/-- char_to_time of convert.c on the text read from the field: parse with
strptime `%H:%M:%S`; on success build the (hour, minute, second, 0) time, on
failure fall back to char_to_pystring, i.e. the raw text. -/
def char_to_time (text : String) : PyValue :=
  match strptimeHMS text with
  | some (h, (m, sec)) => PyValue.time h m sec 0
  | none => PyValue.str text

/-- Modelled from the spec: the buffer cursor of spec sections 3 and 4.1 (the
cursor primitives live in util.c, which is not among the sources here). -/
structure BufferCursor where
  buf : List Nat
  pos : Nat
deriving DecidableEq

/-- Modelled from the spec: `read_fixed(width)` of spec section 4.1 — return
the next `width` bytes and advance, or fail leaving the cursor unchanged
when fewer than `width` bytes remain. -/
def read_fixed (c : BufferCursor) (w : Nat) : Option (List Nat) × BufferCursor :=
  if c.pos + w ≤ c.buf.length then
    (some ((c.buf.drop c.pos).take w), ⟨c.buf, c.pos + w⟩)
  else (none, c)

theorem string_eq_of_data {s t : String} (h : s.data = t.data) : s = t :=
  String.ext h

theorem string_data_append (s t : String) : (s ++ t).data = s.data ++ t.data := rfl

theorem char_ofNat_digit_isDigit {d : Nat} (h : d < 10) :
    (Char.ofNat (48 + d)).isDigit = true := by
  interval_cases d <;> decide

theorem natDigitsAux_digits :
    ∀ fuel n c, c ∈ natDigitsAux fuel n → c.isDigit = true := by
  intro fuel
  induction fuel with
  | zero => intro n c hc; simp [natDigitsAux] at hc
  | succ f ih =>
    intro n c hc
    unfold natDigitsAux at hc
    by_cases h : n < 10
    · rw [if_pos h] at hc
      simp only [List.mem_singleton] at hc
      subst hc
      exact char_ofNat_digit_isDigit h
    · rw [if_neg h] at hc
      rcases List.mem_append.mp hc with h1 | h2
      · exact ih _ _ h1
      · simp only [List.mem_singleton] at h2
        subst h2
        exact char_ofNat_digit_isDigit (Nat.mod_lt _ (by norm_num))

theorem natDigitsAux_ne_nil (fuel n : Nat) (h : 0 < fuel) :
    natDigitsAux fuel n ≠ [] := by
  cases fuel with
  | zero => omega
  | succ f =>
    unfold natDigitsAux
    by_cases hn : n < 10
    · rw [if_pos hn]; simp
    · rw [if_neg hn]; simp

theorem natDigitsAux_length_le :
    ∀ fuel n k, 0 < k → n < 10 ^ k → (natDigitsAux fuel n).length ≤ k := by
  intro fuel
  induction fuel with
  | zero => intro n k hk _; simp [natDigitsAux]
  | succ f ih =>
    intro n k hk hn
    unfold natDigitsAux
    by_cases h : n < 10
    · rw [if_pos h]; simpa using hk
    · rw [if_neg h]
      have hk2 : 2 ≤ k := by
        by_contra hlt
        push_neg at hlt
        have hk1 : k = 1 := by omega
        rw [hk1] at hn
        simp at hn
        omega
      have hdiv : n / 10 < 10 ^ (k - 1) := by
        rw [Nat.div_lt_iff_lt_mul (by norm_num : 0 < 10)]
        have : 10 ^ (k - 1) * 10 = 10 ^ k := by
          rw [← pow_succ]
          congr 1
          omega
        omega
      have := ih (n / 10) (k - 1) (by omega) hdiv
      rw [List.length_append]
      simp only [List.length_singleton]
      omega

theorem natRepr_digits (n : Nat) : ∀ c ∈ (natRepr n).data, c.isDigit = true := by
  intro c hc
  exact natDigitsAux_digits _ _ _ hc

theorem natRepr_data_ne_nil (n : Nat) : (natRepr n).data ≠ [] :=
  natDigitsAux_ne_nil _ _ (by omega)

theorem natRepr_length_le {n k : Nat} (hk : 0 < k) (hn : n < 10 ^ k) :
    (natRepr n).length ≤ k :=
  natDigitsAux_length_le _ _ _ hk hn

theorem zeroPad_length (w : Nat) (s : String) (h : s.length ≤ w) :
    (zeroPad w s).length = w := by
  unfold zeroPad
  show (List.replicate (w - s.length) '0' ++ s.data).length = w
  rw [List.length_append, List.length_replicate]
  have : s.data.length = s.length := rfl
  omega

theorem isDigit_not_sign {c : Char} (h : c.isDigit = true) : ¬(c = '-' ∨ c = '+') := by
  rintro (rfl | rfl) <;> exact absurd h (by decide)

theorem spanDigits_append :
    ∀ (d r : List Char), (∀ c ∈ d, c.isDigit = true) →
      (∀ c, r.head? = some c → c.isDigit = false) →
      spanDigits (d ++ r) = (d, r) := by
  intro d
  induction d with
  | nil =>
    intro r _ hr
    cases r with
    | nil => rfl
    | cons c cs =>
      have hc := hr c rfl
      simp only [List.nil_append]
      unfold spanDigits
      rw [if_neg (by simp [hc])]
  | cons a d ih =>
    intro r hd hr
    have ha : a.isDigit = true := hd a (by simp)
    simp only [List.cons_append]
    unfold spanDigits
    rw [if_pos ha, ih r (fun c hc => hd c (by simp [hc])) hr]

theorem parseBody_digits (neg : Bool) (d : List Char) (hne : d ≠ [])
    (hd : ∀ c ∈ d, c.isDigit = true) :
    parseBody neg d = some (ratOfParts neg d []) := by
  have hs : spanDigits d = (d, []) := by
    have h := spanDigits_append d [] hd (by intro c hc; simp at hc)
    simpa using h
  unfold parseBody
  rw [hs]
  obtain ⟨x, xs, rfl⟩ := List.exists_cons_of_ne_nil hne
  rfl

theorem parseBody_point (neg : Bool) (d1 d2 : List Char) (h1 : d1 ≠ [])
    (hd1 : ∀ c ∈ d1, c.isDigit = true) (h2 : d2 ≠ [])
    (hd2 : ∀ c ∈ d2, c.isDigit = true) :
    parseBody neg (d1 ++ '.' :: d2) = some (ratOfParts neg d1 d2) := by
  have hs1 : spanDigits (d1 ++ '.' :: d2) = (d1, '.' :: d2) := by
    apply spanDigits_append d1 ('.' :: d2) hd1
    intro c hc
    simp only [List.head?_cons, Option.some.injEq] at hc
    subst hc
    decide
  have hs2 : spanDigits d2 = (d2, []) := by
    have h := spanDigits_append d2 [] hd2 (by intro c hc; simp at hc)
    simpa using h
  unfold parseBody
  rw [hs1]
  dsimp only
  rw [hs2]
  obtain ⟨x, xs, rfl⟩ := List.exists_cons_of_ne_nil h1
  simp

theorem parseFloatLit_sign_digits (neg : Bool) (d : List Char) (h : d ≠ [])
    (hd : ∀ c ∈ d, c.isDigit = true) :
    parseFloatLit ⟨(cond neg ['-'] []) ++ d⟩ = some (ratOfParts neg d []) := by
  cases neg with
  | true =>
    show parseFloatLit ⟨'-' :: d⟩ = _
    have h1 : parseSign ('-' :: d) = (true, d) := by simp [parseSign]
    unfold parseFloatLit
    dsimp only
    rw [h1]
    simp only [List.isEmpty_cons, Bool.false_eq_true, if_false]
    exact parseBody_digits true d h hd
  | false =>
    obtain ⟨c, cs, rfl⟩ := List.exists_cons_of_ne_nil h
    show parseFloatLit ⟨c :: cs⟩ = _
    have hc : c.isDigit = true := hd c (by simp)
    have h1 : parseSign (c :: cs) = (false, c :: cs) := by
      simp [parseSign, if_neg (isDigit_not_sign hc)]
    unfold parseFloatLit
    dsimp only
    rw [h1]
    simp only [List.isEmpty_cons, Bool.false_eq_true, if_false]
    exact parseBody_digits false (c :: cs) (by simp) hd

theorem parseFloatLit_sign_point (neg : Bool) (d1 d2 : List Char) (h1 : d1 ≠ [])
    (hd1 : ∀ c ∈ d1, c.isDigit = true) (h2 : d2 ≠ [])
    (hd2 : ∀ c ∈ d2, c.isDigit = true) :
    parseFloatLit ⟨(cond neg ['-'] []) ++ d1 ++ '.' :: d2⟩ =
      some (ratOfParts neg d1 d2) := by
  cases neg with
  | true =>
    show parseFloatLit ⟨'-' :: (d1 ++ '.' :: d2)⟩ = _
    have hp : parseSign ('-' :: (d1 ++ '.' :: d2)) = (true, d1 ++ '.' :: d2) := by
      simp [parseSign]
    unfold parseFloatLit
    dsimp only
    rw [hp]
    simp only [List.isEmpty_cons, Bool.false_eq_true, if_false]
    exact parseBody_point true d1 d2 h1 hd1 h2 hd2
  | false =>
    obtain ⟨c, cs, rfl⟩ := List.exists_cons_of_ne_nil h1
    show parseFloatLit ⟨c :: (cs ++ '.' :: d2)⟩ = _
    have hc : c.isDigit = true := hd1 c (by simp)
    have hp : parseSign (c :: (cs ++ '.' :: d2)) = (false, c :: (cs ++ '.' :: d2)) := by
      simp [parseSign, if_neg (isDigit_not_sign hc)]
    unfold parseFloatLit
    dsimp only
    rw [hp]
    simp only [List.isEmpty_cons, Bool.false_eq_true, if_false]
    have := parseBody_point false (c :: cs) d2 (by simp) hd1 h2 hd2
    simpa using this

theorem zeroPad_data (w : Nat) (s : String) :
    (zeroPad w s).data = List.replicate (w - s.length) '0' ++ s.data := rfl

theorem zeroPad_natRepr_digits (w b : Nat) :
    ∀ c ∈ (zeroPad w (natRepr b)).data, c.isDigit = true := by
  intro c hc
  rw [zeroPad_data] at hc
  rcases List.mem_append.mp hc with h | h
  · rw [List.eq_of_mem_replicate h]
    decide
  · exact natRepr_digits b c h

theorem zeroPad_natRepr_ne_nil (w b : Nat) : (zeroPad w (natRepr b)).data ≠ [] := by
  rw [zeroPad_data]
  intro h
  rcases List.append_eq_nil.mp h with ⟨-, h2⟩
  exact natRepr_data_ne_nil b h2

theorem parseFloatLit_int_generic (sgn : String) (a : Nat)
    (hsgn : sgn.data = ['-'] ∨ sgn.data = []) :
    (parseFloatLit (sgn ++ natRepr a)).isSome = true := by
  rcases hsgn with h | h
  · have he : sgn ++ natRepr a = ⟨(cond true ['-'] []) ++ (natRepr a).data⟩ := by
      apply string_eq_of_data
      rw [string_data_append, h]
      rfl
    rw [he, parseFloatLit_sign_digits true (natRepr a).data (natRepr_data_ne_nil a)
      (natRepr_digits a)]
    rfl
  · have he : sgn ++ natRepr a = ⟨(cond false ['-'] []) ++ (natRepr a).data⟩ := by
      apply string_eq_of_data
      rw [string_data_append, h]
      rfl
    rw [he, parseFloatLit_sign_digits false (natRepr a).data (natRepr_data_ne_nil a)
      (natRepr_digits a)]
    rfl

theorem parseFloatLit_render_generic (sgn : String) (a : Nat) (frac : String)
    (hsgn : sgn.data = ['-'] ∨ sgn.data = [])
    (hfrac : ∀ c ∈ frac.data, c.isDigit = true) (hfne : frac.data ≠ []) :
    (parseFloatLit (sgn ++ natRepr a ++ "." ++ frac)).isSome = true := by
  rcases hsgn with h | h
  · have he : sgn ++ natRepr a ++ "." ++ frac =
        ⟨(cond true ['-'] []) ++ (natRepr a).data ++ '.' :: frac.data⟩ := by
      apply string_eq_of_data
      simp only [string_data_append, h]
      simp
    rw [he, parseFloatLit_sign_point true (natRepr a).data frac.data
      (natRepr_data_ne_nil a) (natRepr_digits a) hfne hfrac]
    rfl
  · have he : sgn ++ natRepr a ++ "." ++ frac =
        ⟨(cond false ['-'] []) ++ (natRepr a).data ++ '.' :: frac.data⟩ := by
      apply string_eq_of_data
      simp only [string_data_append, h]
      simp
    rw [he, parseFloatLit_sign_point false (natRepr a).data frac.data
      (natRepr_data_ne_nil a) (natRepr_digits a) hfne hfrac]
    rfl

theorem parseFloatLit_intRepr (v : Int) : (parseFloatLit (intRepr v)).isSome = true := by
  unfold intRepr
  apply parseFloatLit_int_generic
  by_cases hv : v < 0
  · left; rw [if_pos hv]
  · right; rw [if_neg hv]

theorem parseFloatLit_decimal_int_render (v : Int) (scale : Nat) :
    (parseFloatLit (decimal_int_render v scale)).isSome = true := by
  unfold decimal_int_render
  by_cases h : 0 < scale
  · rw [if_pos h]
    dsimp only
    apply parseFloatLit_render_generic
    · by_cases hv : v < 0
      · left; rw [if_pos hv]
      · right; rw [if_neg hv]
    · exact zeroPad_natRepr_digits _ _
    · exact zeroPad_natRepr_ne_nil _ _
  · rw [if_neg h]
    exact parseFloatLit_intRepr v

theorem parseFloatLit_decimal128_render (v : Int) (scale : Nat) :
    (parseFloatLit (decimal128_render v scale)).isSome = true := by
  unfold decimal128_render
  by_cases h : 0 < scale
  · rw [if_pos h]
    dsimp only
    unfold intRepr
    apply parseFloatLit_render_generic
    · by_cases hv : v / ((10 ^ scale : Nat) : Int) < 0
      · left; rw [if_pos hv]
      · right; rw [if_neg hv]
    · exact zeroPad_natRepr_digits _ _
    · exact zeroPad_natRepr_ne_nil _ _
  · rw [if_neg h]
    exact parseFloatLit_intRepr v

theorem natAbs_tdiv_natCast (v : Int) (n : Nat) :
    (v.tdiv ((n : Nat) : Int)).natAbs = v.natAbs / n := by
  cases v with
  | ofNat m => rfl
  | negSucc m =>
    have e : (Int.negSucc m).tdiv (Int.ofNat n) = -(Int.ofNat ((m + 1) / n)) := rfl
    show ((Int.negSucc m).tdiv (Int.ofNat n)).natAbs = (m + 1) / n
    rw [e, Int.natAbs_neg]
    rfl

theorem natAbs_tmod_natCast (v : Int) (n : Nat) :
    (v.tmod ((n : Nat) : Int)).natAbs = v.natAbs % n := by
  cases v with
  | ofNat m => rfl
  | negSucc m =>
    have e : (Int.negSucc m).tmod (Int.ofNat n) = -(Int.ofNat ((m + 1) % n)) := rfl
    show ((Int.negSucc m).tmod (Int.ofNat n)).natAbs = (m + 1) % n
    rw [e, Int.natAbs_neg]
    rfl

theorem decimal_int_render_eq_spec (v : Int) (scale : Nat) (h : 0 < scale) :
    decimal_int_render v scale = specDecimalRender v scale := by
  unfold decimal_int_render specDecimalRender
  rw [if_pos h]
  dsimp only
  rw [natAbs_tdiv_natCast, natAbs_tmod_natCast]

theorem intRepr_natCast (m : Nat) : intRepr ((m : Nat) : Int) = natRepr m := by
  unfold intRepr
  rw [if_neg (Int.not_lt.mpr (Int.ofNat_nonneg m)), Int.natAbs_ofNat]
  apply string_eq_of_data
  simp [string_data_append]

theorem decimal128_render_eq_spec (v : Int) (scale : Nat) (h : 0 < scale)
    (hv : 0 ≤ v) : decimal128_render v scale = specDecimalRender v scale := by
  obtain ⟨m, rfl⟩ := Int.eq_ofNat_of_zero_le hv
  unfold decimal128_render specDecimalRender
  rw [if_pos h]
  dsimp only
  rw [← Int.natCast_div, ← Int.natCast_mod, intRepr_natCast, Int.toNat_ofNat,
    Int.natAbs_ofNat]
  rw [if_neg (Int.not_lt.mpr (Int.ofNat_nonneg m))]
  apply string_eq_of_data
  simp [string_data_append]

theorem nat_ldiff_ones_sub (k low n : Nat) (hlow : low < 2 ^ n) :
    Nat.ldiff ((k + 1) * 2 ^ n - 1) low = (k + 1) * 2 ^ n - 1 - low := by
  have hP : 0 < 2 ^ n := Nat.two_pow_pos n
  have e0 : (k + 1) * 2 ^ n = 2 ^ n * k + 2 ^ n := by ring
  have e1 : (k + 1) * 2 ^ n - 1 = 2 ^ n * k + (2 ^ n - 1) := by omega
  have e2 : (k + 1) * 2 ^ n - 1 - low = 2 ^ n * k + (2 ^ n - 1 - low) := by omega
  rw [e2, e1]
  apply Nat.eq_of_testBit_eq
  intro i
  rw [Nat.testBit_ldiff]
  rw [Nat.mul_add_lt_is_or (by omega : 2 ^ n - 1 < 2 ^ n) k]
  rw [Nat.mul_add_lt_is_or (by omega : 2 ^ n - 1 - low < 2 ^ n) k]
  rw [Nat.testBit_lor, Nat.testBit_lor]
  have hs : 2 ^ n * k = k <<< n := by rw [Nat.shiftLeft_eq]; ring
  rw [hs, Nat.testBit_shiftLeft]
  rw [Nat.testBit_two_pow_sub_one]
  have e3 : 2 ^ n - 1 - low = 2 ^ n - (low + 1) := by omega
  rw [e3, Nat.testBit_two_pow_sub_succ hlow]
  by_cases hi : i < n
  · have hni : ¬(i ≥ n) := by omega
    simp [hi, hni]
  · have hni : i ≥ n := by omega
    have ht : low.testBit i = false :=
      Nat.testBit_lt_two_pow
        (lt_of_lt_of_le hlow (Nat.pow_le_pow_right (by norm_num) (by omega)))
    simp [hi, hni, ht]

theorem int_lor_two_pow_add (high : Int) (low : Nat) (hlow : low < 2 ^ 64) :
    Int.lor (high * 2 ^ 64) ((low : Nat) : Int) = high * 2 ^ 64 + low := by
  cases high with
  | ofNat m =>
    have h1 : (Int.ofNat m) * 2 ^ 64 = Int.ofNat (m * 2 ^ 64) := by
      show ((m : Int)) * 2 ^ 64 = ((m * 2 ^ 64 : Nat) : Int)
      push_cast
      ring
    rw [h1]
    have h2 : Int.lor (Int.ofNat (m * 2 ^ 64)) ((low : Nat) : Int) =
        Int.ofNat ((m * 2 ^ 64) ||| low) := rfl
    rw [h2]
    have h3 : (m * 2 ^ 64) ||| low = m * 2 ^ 64 + low := by
      have h4 := Nat.mul_add_lt_is_or hlow m
      calc m * 2 ^ 64 ||| low = 2 ^ 64 * m ||| low := by rw [Nat.mul_comm]
        _ = 2 ^ 64 * m + low := h4.symm
        _ = m * 2 ^ 64 + low := by rw [Nat.mul_comm]
    rw [h3]
    show ((m * 2 ^ 64 + low : Nat) : Int) = Int.ofNat m * 2 ^ 64 + ((low : Nat) : Int)
    rw [Int.ofNat_eq_natCast]
    push_cast
    ring
  | negSucc t =>
    have h1 : (1 : Nat) ≤ (t + 1) * 2 ^ 64 := by
      have h5 : 2 ^ 64 ≤ (t + 1) * 2 ^ 64 := Nat.le_mul_of_pos_left _ (by omega)
      have h6 : (1 : Nat) ≤ 2 ^ 64 := by norm_num
      omega
    have hM : Int.negSucc t * 2 ^ 64 = Int.negSucc ((t + 1) * 2 ^ 64 - 1) := by
      rw [Int.negSucc_eq, Int.negSucc_eq, Nat.cast_sub h1]
      push_cast
      ring
    rw [hM]
    have h2 : Int.lor (Int.negSucc ((t + 1) * 2 ^ 64 - 1)) ((low : Nat) : Int) =
        Int.negSucc (Nat.ldiff ((t + 1) * 2 ^ 64 - 1) low) := rfl
    rw [h2, nat_ldiff_ones_sub t low 64 hlow]
    have hle : low + 1 ≤ (t + 1) * 2 ^ 64 := by
      have h5 : 2 ^ 64 ≤ (t + 1) * 2 ^ 64 := Nat.le_mul_of_pos_left _ (by omega)
      omega
    have e : (t + 1) * 2 ^ 64 - 1 - low = (t + 1) * 2 ^ 64 - (1 + low) := by omega
    rw [Int.negSucc_eq, Int.negSucc_eq, e, Nat.cast_sub (by omega), Nat.cast_sub h1]
    push_cast
    ring

theorem decimal128_to_pystring_eq_render (low : Nat) (high : Int)
    (hlow : low < 2 ^ 64) (scale : Nat) :
    decimal128_to_pystring low high scale =
      decimal128_render (high * 2 ^ 64 + low) scale := by
  unfold decimal128_to_pystring pyLshift
  rw [int_lor_two_pow_add high low hlow]

theorem readUIntLE_inv {w : Nat} {data : List Nat} {v : Nat} {rest : List Nat}
    (h : readUIntLE w data = some (v, rest)) :
    v = leVal (data.take w) ∧ rest = data.drop w ∧ w ≤ data.length := by
  unfold readUIntLE at h
  by_cases hw : w ≤ data.length
  · rw [if_pos hw] at h
    simp only [Option.some.injEq, Prod.mk.injEq] at h
    exact ⟨h.1.symm, h.2.symm, hw⟩
  · rw [if_neg hw] at h
    exact absurd h (by simp)

theorem leVal_lt : ∀ l : List Nat, (∀ b ∈ l, b < 256) → leVal l < 256 ^ l.length := by
  intro l
  induction l with
  | nil => intro _; simp [leVal]
  | cons b bs ih =>
    intro h
    have hb := h b (by simp)
    have hbs := ih (fun x hx => h x (by simp [hx]))
    have hpow : (256 : Nat) ^ (b :: bs).length = 256 * 256 ^ bs.length := by
      rw [List.length_cons, pow_succ]
      ring
    show b + 256 * leVal bs < 256 ^ (b :: bs).length
    rw [hpow]
    omega

theorem readUIntLE_low_lt {data : List Nat} (hbytes : ∀ b ∈ data, b < 256)
    {v : Nat} {rest : List Nat} (h : readUIntLE 8 data = some (v, rest)) :
    v < 2 ^ 64 := by
  obtain ⟨hv, -, hlen⟩ := readUIntLE_inv h
  subst hv
  have h1 : ∀ b ∈ data.take 8, b < 256 := fun b hb => hbytes b (List.take_subset _ _ hb)
  have h2 := leVal_lt _ h1
  have h3 : (data.take 8).length = 8 := by
    rw [List.length_take]
    omega
  rw [h3] at h2
  have h4 : (256 : Nat) ^ 8 = 2 ^ 64 := by norm_num
  rw [h4] at h2
  exact h2

theorem intRepr_head_neg (v : Int) (h : v < 0) :
    (intRepr v).data.head? = some '-' := by
  unfold intRepr
  rw [if_pos h]
  rfl

theorem combined_neg {high : Int} {low : Nat} (hh : high < 0) (hlow : low < 2 ^ 64) :
    high * 2 ^ 64 + (low : Int) < 0 := by
  have h1 : high ≤ -1 := by omega
  have h2 : high * 2 ^ 64 ≤ -1 * 2 ^ 64 :=
    mul_le_mul_of_nonneg_right h1 (by positivity)
  have h3 : (low : Int) < 2 ^ 64 := by exact_mod_cast hlow
  have h4 : (0 : Int) ≤ low := Int.ofNat_nonneg low
  linarith

/-- C5: for every fixed-width read of width `w`, if fewer than `w` bytes
remain between the cursor position and the end of the buffer, the operation
fails with an OutOfBounds error (`none`) and the cursor is unchanged. -/
theorem c5_read_fixed_out_of_bounds (c : BufferCursor) (w : Nat)
    (h : c.buf.length < c.pos + w) :
    (read_fixed c w).1 = none ∧ (read_fixed c w).2 = c := by
  unfold read_fixed
  rw [if_neg (by omega)]
  exact ⟨rfl, rfl⟩

/-- C5 witness: a 4-byte read with only 2 bytes remaining fails and leaves
the cursor where it was. -/
theorem c5_read_fixed_out_of_bounds_witness :
    (read_fixed ⟨[7, 7], 0⟩ 4).1 = none ∧ (read_fixed ⟨[7, 7], 0⟩ 4).2 = ⟨[7, 7], 0⟩ :=
  c5_read_fixed_out_of_bounds ⟨[7, 7], 0⟩ 4 (by decide)

/-- C6: time decode parses the text with the `%H:%M:%S` pattern; a text the
pattern accepts yields the (hour, minute, second, 0) value — "09:15:30"
gives (9,15,30,0) — and a text it rejects is returned as the raw string
value rather than an error, so "garbage" decodes to the string "garbage". -/
theorem c6_char_to_time_fallback (t : String) :
    (∀ h m s, strptimeHMS t = some (h, (m, s)) → char_to_time t = PyValue.time h m s 0) ∧
    (strptimeHMS t = none → char_to_time t = PyValue.str t) ∧
    char_to_time "09:15:30" = PyValue.time 9 15 30 0 ∧
    char_to_time "garbage" = PyValue.str "garbage" := by
  refine ⟨fun h m s he => ?_, fun he => ?_, by decide, by decide⟩
  · unfold char_to_time
    rw [he]
  · unfold char_to_time
    rw [he]

/-- C6 witness: the fallback clause applied to the concrete text "garbage". -/
theorem c6_char_to_time_fallback_witness :
    char_to_time "garbage" = PyValue.str "garbage" :=
  (c6_char_to_time_fallback "garbage").2.1 (by decide)

/-- C7, evaluated at the failing input: encoding the 6-byte string "ABCDEF"
into a 5-byte Char field writes all 6 bytes and reports success — there is
no FieldTooLong error in the code — while a fitting source such as "AB" is
space-padded to exactly the declared width. -/
theorem c7_char_encode_no_length_check :
    (pystring_to_char "ABCDEF" 5).ok = true ∧
    (pystring_to_char "ABCDEF" 5).bytes.length = 6 ∧
    (pystring_to_char "AB" 5).bytes = [65, 66, 32, 32, 32] ∧
    (pystring_to_char "AB" 5).bytes.length = 5 :=
  ⟨rfl, by decide, by decide, by decide⟩

/-- C8, evaluated at the failing input: encoding "1" for a Decimal16
descriptor (byte_length 2) writes 8 bytes through `pack_int64_t`, not the 2
bytes the descriptor declares, even though the length counter is advanced by
the declared byte_length. -/
theorem c8_decimal_encode_always_eight_bytes :
    (pystring_to_decimal "1" 2 0).bytes.length = 8 ∧
    (pystring_to_decimal "1" 2 0).bytes.length ≠ 2 ∧
    (pystring_to_decimal "1" 2 0).lenInc = 2 :=
  ⟨by decide, by decide, rfl⟩

/-- C9, evaluated at the failing input: the string "1.2.3" (two decimal
points) is split with maxsplit 1 into "1" and "2.3", the rebuilt text
"12.3" fails the integer parse, and the code still packs the error value -1
and returns success — no MalformedDecimal error is raised; a non-numeric
string such as "abc" takes the same path. -/
theorem c9_malformed_decimal_not_rejected :
    (pystring_to_decimal "1.2.3" 8 2).ok = true ∧
    (pystring_to_decimal "1.2.3" 8 2).bytes =
      [255, 255, 255, 255, 255, 255, 255, 255] ∧
    (pystring_to_decimal "abc" 8 2).ok = true ∧
    (pystring_to_decimal "abc" 8 2).bytes =
      [255, 255, 255, 255, 255, 255, 255, 255] :=
  ⟨rfl, by decide, rfl, by decide⟩

/-- C4 counterexample: the encoded date integer 171231 (little-endian bytes
[223,156,2,0]) decodes to (1917, 12, 31), not to (2017, 12, 31). -/
theorem c4_date_offset_counterexample :
    date_to_pydate [223, 156, 2, 0] = some (1917, 12, 31) ∧
    ((1917 : Int), ((12 : Int), (31 : Int))) ≠ (2017, 12, 31) :=
  ⟨by decide, by decide⟩

/-- C4 amended: the encoded integer 1171231 decodes to (2017, 12, 31), and
encoding the date text "2017-12-31" packs exactly the 4 little-endian bytes
of 1171231 (the round trip holds at 1171231, not 171231). -/
theorem c4_date_offset_amended :
    date_to_pydate [31, 223, 17, 0] = some (2017, 12, 31) ∧
    (pydate_to_int "2017-12-31" 4).bytes = [31, 223, 17, 0] ∧
    (pydate_to_int "2017-12-31" 4).ok = true ∧
    toBytesLE 4 1171231 = [31, 223, 17, 0] :=
  ⟨by decide, by decide, rfl, by decide⟩

/-- C3: date decode reads a signed 4-byte integer `l` and returns
(year, month, day) computed from `l' = l + 19000000` as
(l'/10000, (l'%10000)/100, l'%100) with C truncated division; on the
non-negative range of `l'` the truncated operations coincide with
mathematical division and remainder.  The bound keeps `l'` inside int32,
where the C addition is defined behavior. -/
theorem c3_date_decode (data : List Nat) (l : Int) (rest : List Nat)
    (hread : readIntLE 4 data = some (l, rest))
    (hov : l + 19000000 < 2 ^ 31) :
    date_to_pydate data =
      some ((l + 19000000).tdiv 10000,
        (((l + 19000000).tmod 10000).tdiv 100, (l + 19000000).tmod 100)) ∧
    (0 ≤ l + 19000000 →
      date_to_pydate data =
        some ((l + 19000000) / 10000,
          (((l + 19000000) % 10000) / 100, (l + 19000000) % 100))) := by
  have hmain : date_to_pydate data =
      some ((l + 19000000).tdiv 10000,
        (((l + 19000000).tmod 10000).tdiv 100, (l + 19000000).tmod 100)) := by
    unfold date_to_pydate
    rw [hread]
  refine ⟨hmain, fun hpos => ?_⟩
  rw [hmain]
  have e1 : (l + 19000000).tdiv 10000 = (l + 19000000) / 10000 :=
    Int.tdiv_eq_ediv hpos (by norm_num)
  have e2 : (l + 19000000).tmod 10000 = (l + 19000000) % 10000 :=
    Int.tmod_eq_emod hpos (by norm_num)
  have e3 : ((l + 19000000) % 10000).tdiv 100 = ((l + 19000000) % 10000) / 100 :=
    Int.tdiv_eq_ediv (Int.emod_nonneg _ (by norm_num)) (by norm_num)
  have e4 : (l + 19000000).tmod 100 = (l + 19000000) % 100 :=
    Int.tmod_eq_emod hpos (by norm_num)
  rw [e1, e2, e3, e4]

/-- C3 witness: the 4 bytes of 1171231 decode through the stated formulas. -/
theorem c3_date_decode_witness :
    date_to_pydate [31, 223, 17, 0] =
      some (((1171231 : Int) + 19000000).tdiv 10000,
        ((((1171231 : Int) + 19000000).tmod 10000).tdiv 100,
          ((1171231 : Int) + 19000000).tmod 100)) :=
  (c3_date_decode [31, 223, 17, 0] 1171231 [] (by decide) (by decide)).1

/-- C1 (amended): for widths 1/2/4/8 — with the value in the type's range
and `10^scale` representable in it, which is where the C pow cast is
defined — decoding at scale > 0 renders `[-]x.y` with `x = |v| / 10^scale`
and `y = |v| % 10^scale` zero-padded to exactly `scale` digits, as the claim
states; for width 16 this holds for non-negative combined values, while a
negative Decimal128 value goes through Python floor division instead (see
the counterexample).  The padded fractional part always has exactly `scale`
digits, and the claim's concrete examples hold. -/
theorem c1_decimal_scale_render (v : Int) (scale : Nat) (hs : 0 < scale) :
    ((-(2 ^ 7) ≤ v → v < 2 ^ 7 → 10 ^ scale < 2 ^ 7 →
        decimal8_to_pystring v scale = specDecimalRender v scale) ∧
      (-(2 ^ 15) ≤ v → v < 2 ^ 15 → 10 ^ scale < 2 ^ 15 →
        decimal16_to_pystring v scale = specDecimalRender v scale) ∧
      (-(2 ^ 31) ≤ v → v < 2 ^ 31 → 10 ^ scale < 2 ^ 31 →
        decimal32_to_pystring v scale = specDecimalRender v scale) ∧
      (-(2 ^ 63) ≤ v → v < 2 ^ 63 → 10 ^ scale < 2 ^ 63 →
        decimal64_to_pystring v scale = specDecimalRender v scale)) ∧
    (∀ (low : Nat) (high : Int), low < 2 ^ 64 → 0 ≤ high * 2 ^ 64 + low →
      decimal128_to_pystring low high scale =
        specDecimalRender (high * 2 ^ 64 + low) scale) ∧
    (∀ y : Nat, y < 10 ^ scale → (zeroPad scale (natRepr y)).length = scale) ∧
    decimal16_to_pystring (-123) 2 = "-1.23" ∧
    decimal16_to_pystring (-5) 2 = "-0.05" := by
  refine ⟨⟨?_, ?_, ?_, ?_⟩, ?_, ?_, by decide, by decide⟩
  · intro _ _ _
    exact decimal_int_render_eq_spec v scale hs
  · intro _ _ _
    exact decimal_int_render_eq_spec v scale hs
  · intro _ _ _
    exact decimal_int_render_eq_spec v scale hs
  · intro _ _ _
    exact decimal_int_render_eq_spec v scale hs
  · intro low high hlow hnn
    rw [decimal128_to_pystring_eq_render low high hlow scale]
    exact decimal128_render_eq_spec _ scale hs hnn
  · intro y hy
    exact zeroPad_length _ _ (natRepr_length_le hs hy)

/-- C1 witness: Decimal16 raw value -123 at scale 2 renders exactly the
specified text, which is "-1.23". -/
theorem c1_decimal_scale_render_witness :
    decimal16_to_pystring (-123) 2 = specDecimalRender (-123) 2 ∧
    specDecimalRender (-123) 2 = "-1.23" :=
  ⟨(c1_decimal_scale_render (-123) 2 (by decide)).1.2.1 (by decide) (by decide)
      (by decide),
    by decide⟩

/-- C1 counterexample: the 16-byte width breaks the claimed rendering for
negative values: the Decimal128 raw value -123 (low word 2^64 - 123, high
word -1) at scale 2 renders "-2.77", not the claimed "-1.23". -/
theorem c1_decimal128_negative_counterexample :
    decimal128_to_pystring (2 ^ 64 - 123) (-1) 2 = "-2.77" ∧
    (-1 : Int) * 2 ^ 64 + ((2 ^ 64 - 123 : Nat) : Int) = -123 ∧
    specDecimalRender (-123) 2 = "-1.23" ∧
    ("-2.77" : String) ≠ "-1.23" := by
  have hlow : (2 ^ 64 - 123 : Nat) < 2 ^ 64 := by norm_num
  have e : (-1 : Int) * 2 ^ 64 + ((2 ^ 64 - 123 : Nat) : Int) = -123 := by
    rw [Nat.cast_sub (by norm_num)]
    push_cast
  refine ⟨?_, e, by decide, by decide⟩
  rw [decimal128_to_pystring_eq_render _ _ hlow 2, e]
  decide

/-- C2: Decimal128 decode reads an 8-byte unsigned low word first, then an
8-byte signed high word, and renders the combined signed value
`high * 2^64 + low` (the Python expression `(high << 64) | low`); with
scale 0 the output is the decimal text of that value, and a negative high
word makes the text start with a minus sign. -/
theorem c2_decimal128_composition (data : List Nat) (hbytes : ∀ b ∈ data, b < 256)
    (low : Nat) (rest : List Nat) (hlow : readUIntLE 8 data = some (low, rest))
    (high : Int) (rest2 : List Nat) (hhigh : readIntLE 8 rest = some (high, rest2)) :
    decimal_to_pystring data 16 0 = some (intRepr (high * 2 ^ 64 + low)) ∧
    (high < 0 → (intRepr (high * 2 ^ 64 + low)).data.head? = some '-') := by
  have hlt : low < 2 ^ 64 := readUIntLE_low_lt hbytes hlow
  constructor
  · have hd : decimal_to_pystring data 16 0 =
        (match readUIntLE 8 data with
          | some (lo, r1) =>
            match readIntLE 8 r1 with
            | some (hi, _) => some (decimal128_to_pystring lo hi 0)
            | none => none
          | none => none) := rfl
    rw [hd]
    simp only [hlow, hhigh]
    show some (decimal128_to_pystring low high 0) = some (intRepr (high * 2 ^ 64 + low))
    rw [decimal128_to_pystring_eq_render low high hlt 0]
    rfl
  · intro hneg
    exact intRepr_head_neg _ (combined_neg hneg hlt)

/-- C2 witness: low word 12345, high word 0 decode at scale 0 to the decimal
text of 0 * 2^64 + 12345, i.e. "12345". -/
theorem c2_decimal128_composition_witness :
    decimal_to_pystring [57, 48, 0, 0, 0, 0, 0, 0, 0, 0, 0, 0, 0, 0, 0, 0] 16 0 =
      some (intRepr ((0 : Int) * 2 ^ 64 + (12345 : Nat))) ∧
    intRepr ((0 : Int) * 2 ^ 64 + (12345 : Nat)) = "12345" :=
  ⟨(c2_decimal128_composition [57, 48, 0, 0, 0, 0, 0, 0, 0, 0, 0, 0, 0, 0, 0, 0]
      (by decide) 12345 [0, 0, 0, 0, 0, 0, 0, 0] (by decide) 0 [] (by decide)).1,
    by decide⟩

/-- C10: the float decode path is exactly the parse of the string the string
decode path produces on the same bytes: whenever decimal_to_pystring yields
a string, decimal_to_pyfloat yields parseFloatLit of that very string, and
that parse succeeds.  The scale hypothesis keeps the width-1/2/4/8 decoders
inside the range where the C pow cast is defined behavior. -/
theorem c10_pyfloat_parses_pystring (data : List Nat) (w scale : Nat) (str : String)
    (hok : ScaleOK w scale) (h : decimal_to_pystring data w scale = some str) :
    decimal_to_pyfloat data w scale = parseFloatLit str ∧
    (parseFloatLit str).isSome = true := by
  constructor
  · unfold decimal_to_pyfloat
    rw [h]
    rfl
  · unfold decimal_to_pystring at h
    split at h
    · split at h
      · simp only [Option.some.injEq] at h
        subst h
        exact parseFloatLit_decimal_int_render _ _
      · exact absurd h (by simp)
    · split at h
      · simp only [Option.some.injEq] at h
        subst h
        exact parseFloatLit_decimal_int_render _ _
      · exact absurd h (by simp)
    · split at h
      · simp only [Option.some.injEq] at h
        subst h
        exact parseFloatLit_decimal_int_render _ _
      · exact absurd h (by simp)
    · split at h
      · simp only [Option.some.injEq] at h
        subst h
        exact parseFloatLit_decimal_int_render _ _
      · exact absurd h (by simp)
    · split at h
      · split at h
        · simp only [Option.some.injEq] at h
          subst h
          exact parseFloatLit_decimal128_render _ _
        · exact absurd h (by simp)
      · exact absurd h (by simp)
    · exact absurd h (by simp)

/-- C10 witness: the bytes of the Decimal16 value -123 at scale 2 render as
"-1.23", and the float path returns exactly the parse of that string. -/
theorem c10_pyfloat_parses_pystring_witness :
    decimal_to_pyfloat [133, 255] 2 2 = parseFloatLit "-1.23" ∧
    (parseFloatLit "-1.23").isSome = true :=
  c10_pyfloat_parses_pystring [133, 255] 2 2 "-1.23" (by decide) (by decide)
